import Mathlib

/-!
Verification development for the dj-soundcloud-digger pipeline
(`src/dj-soundcloud-digger.py`).

The Python source is shallowly embedded below.  Strings are processed as
`List Char`; the Python standard-library operations the source relies on
(`str.strip`, `str.lower`, `in`, `str.split`, `urllib.parse.urlparse` /
`geturl` / `urljoin`, `int(...)`, truthiness, `dict.get`, `json.loads`,
`re.search` for the two fixed patterns) are modelled explicitly, restricted
to the ASCII subset the claims exercise; each model's doc comment records
the modelled subset.  JSON values are represented by the inductive `JValue`
(numbers restricted to integers, the only kind the claims touch).
Side-effecting parts (file IO, HTTP, logging, sleeping, the BeautifulSoup
parse itself) are abstracted into inputs: a function receives exactly the
data the source reads out of those collaborators, and its doc comment says
so.  Python exceptions that can escape a modelled function are represented
with `Except`.
-/

/-! ## Python string primitives (ASCII subset) -/

/-- The whitespace set of Python `str.strip()` / regex `\s`, ASCII subset
(space, tab, newline, carriage return, vertical tab, form feed). -/
def pyWS (c : Char) : Bool :=
  c = ' ' || c = '\t' || c = '\n' || c = '\r' || c = '\x0b' || c = '\x0c'

/-- Python `str.strip()` on a character list (ASCII whitespace subset). -/
def trimChars (l : List Char) : List Char :=
  ((l.dropWhile pyWS).reverse.dropWhile pyWS).reverse

/-- Python `str.strip()`. -/
def pyStrip (s : String) : String :=
  String.mk (trimChars s.toList)

/-- Python `str.lower()` (ASCII subset: `Char.toLower` maps only A-Z). -/
def lowerChars (l : List Char) : List Char :=
  l.map Char.toLower

/-- Python `str.startswith` on character lists. -/
def listStartsW : List Char → List Char → Bool
  | [], _ => true
  | _ :: _, [] => false
  | a :: as, b :: bs => if b = a then listStartsW as bs else false

/-- Python substring containment `sub in s` on character lists. -/
def containsSub (sub : List Char) : List Char → Bool
  | [] => sub.isEmpty
  | l@(_ :: rest) => listStartsW sub l || containsSub sub rest

/-- Python `sub in s` on strings. -/
def pyIn (sub s : String) : Bool :=
  containsSub sub.toList s.toList

/-- Split a character list at the first occurrence of `c`: the pair of the
part before and the part after.  When `c` does not occur the second
component is empty, which the callers below treat the same as an empty
part after a final `c` (matching how `urlparse` treats an absent and an
empty query/fragment identically in `clean_track_url`). -/
def breakAtChar (c : Char) : List Char → List Char × List Char
  | [] => ([], [])
  | x :: xs =>
    if x = c then ([], xs)
    else
      let p := breakAtChar c xs
      (x :: p.1, p.2)

/-- Python `s.split(sep)` for a one-character separator. -/
def splitOnChar (c : Char) : List Char → List (List Char)
  | [] => [[]]
  | x :: xs =>
    let r := splitOnChar c xs
    if x = c then [] :: r
    else
      match r with
      | h :: t => (x :: h) :: t
      | [] => [[x]]

/-- Python `"&".join(parts)`. -/
def joinAmp : List (List Char) → List Char
  | [] => []
  | [p] => p
  | p :: rest => p ++ '&' :: joinAmp rest

/-- Python `s.rstrip("?")`. -/
def dropTrailingQ (l : List Char) : List Char :=
  (l.reverse.dropWhile (fun c => c = '?')).reverse

/-- Decimal value of a digit run. -/
def digitsVal (l : List Char) : Nat :=
  l.foldl (fun acc c => acc * 10 + (c.toNat - 48)) 0

/-- Python `int(s)` for a string: surrounding whitespace, an optional
sign, then at least one ASCII digit.  Underscore digit separators and
non-ASCII digits are outside the modelled subset. -/
def pyIntOfString (s : String) : Option Int :=
  let l := trimChars s.toList
  match l with
  | '-' :: ds =>
    if ds ≠ [] ∧ ds.all Char.isDigit then some (-(digitsVal ds : Int)) else none
  | '+' :: ds =>
    if ds ≠ [] ∧ ds.all Char.isDigit then some ((digitsVal ds : Int)) else none
  | ds =>
    if ds ≠ [] ∧ ds.all Char.isDigit then some ((digitsVal ds : Int)) else none

/-- Code-point lexicographic order on character lists (Python string
comparison). -/
def charListLeB : List Char → List Char → Bool
  | [], _ => true
  | _ :: _, [] => false
  | a :: as, b :: bs => if a = b then charListLeB as bs else decide (a.toNat < b.toNat)

/-- Python `<=` on strings. -/
def strLeB (a b : String) : Bool :=
  charListLeB a.toList b.toList

def insertSorted (s : String) : List String → List String
  | [] => [s]
  | x :: xs => if strLeB s x then s :: x :: xs else x :: insertSorted s xs

/-- Python `sorted` on strings (insertion sort; stable, same order). -/
def sortStrings : List String → List String
  | [] => []
  | x :: xs => insertSorted x (sortStrings xs)

/-- Python `set.add`: a set of strings modelled as a duplicate-free list in
insertion order. -/
def setAdd (l : List String) (s : String) : List String :=
  if s ∈ l then l else l ++ [s]

/-- Python `set.update` / union into an accumulator set. -/
def setUnionList (acc : List String) (ls : List String) : List String :=
  ls.foldl setAdd acc

/-- Python `set(l)` as a duplicate-free list. -/
def dedupList (l : List String) : List String :=
  l.foldl setAdd []

/-- Python `s.find(sub)` starting at index `i` (the index accumulator):
first index at which `sub` occurs, `none` when it does not (`-1` in
Python). -/
def listFindSub (sub : List Char) : List Char → Nat → Option Nat
  | [], i => if listStartsW sub [] then some i else none
  | l@(_ :: rest), i => if listStartsW sub l then some i else listFindSub sub rest (i + 1)

/-- Python `s.find(c, start)` for a single character. -/
def findCharFrom (l : List Char) (c : Char) (start : Nat) : Option Nat :=
  match (l.drop start).findIdx? (fun x => x = c) with
  | some j => some (start + j)
  | none => none

/-- Split at the first colon: the part before and after it, `none` when no
colon occurs. -/
def findColon : List Char → Option (List Char × List Char)
  | [] => none
  | c :: rest =>
    if c = ':' then some ([], rest)
    else
      match findColon rest with
      | some p => some (c :: p.1, p.2)
      | none => none

/-- Python `s.split(sub)[0]`: the part before the first occurrence of
`sub` (the whole list when `sub` does not occur). -/
def beforeSub (sub : List Char) : List Char → List Char
  | [] => []
  | l@(x :: rest) => if listStartsW sub l then [] else x :: beforeSub sub rest

/-- Case-insensitive literal match: consume `pat` (given lower-case) from
the front of `l`, comparing lower-cased characters; return the rest. -/
def dropLiteralCI : List Char → List Char → Option (List Char)
  | [], l => some l
  | _ :: _, [] => none
  | p :: ps, c :: cs => if c.toLower = p then dropLiteralCI ps cs else none

/-! ## URL canonicalizer (`clean_track_url`, lines 361-369)

`urllib.parse.urlparse` is modelled for the subset the claims exercise:
URLs without embedded ASCII whitespace and with an already lower-case
scheme, so that reassembly of the part before the query is the identity.
`urlparse` takes the fragment to be everything after the first `#` and the
query everything after the first `?` of what precedes the fragment;
`geturl` appends `'?' + query` exactly when the query component is
non-empty, and `'#' + fragment` exactly when the fragment is non-empty. -/

/-- Embeds `clean_track_url`: drop the fragment, drop query parameters
starting with `in=`, reassemble, strip trailing `?` characters.  Note the
source sets the query component to a string that itself starts with `?`
(`cleaned_query = "?" + "&".join(params)`) and `geturl` then contributes a
second `?` in front of a non-empty query component. -/
def clean_track_url (url : String) : String :=
  let l := url.toList
  let preFrag := (breakAtChar '#' l).1
  let bq := breakAtChar '?' preFrag
  let base := bq.1
  let query := bq.2
  let cleanedQuery : List Char :=
    if query ≠ [] then
      let params := (splitOnChar '&' query).filter (fun p => ¬ listStartsW "in=".toList p)
      if params ≠ [] then '?' :: joinAmp params else []
    else []
  let reassembled := if cleanedQuery ≠ [] then base ++ '?' :: cleanedQuery else base
  String.mk (dropTrailingQ reassembled)

/-! ## URL scheme and host extraction (`urllib.parse.urlparse` pieces) -/

/-- The characters CPython allows after the first character of a URL
scheme (ASCII letters, digits, `+`, `-`, `.`). -/
def schemeChar (c : Char) : Bool :=
  c.isAlpha || c.isDigit || c = '+' || c = '-' || c = '.'

/-- CPython scheme split: at the first colon, provided the part before it
is non-empty, starts with an ASCII letter and consists of scheme
characters; the scheme is lower-cased.  Otherwise no scheme. -/
def splitScheme (l : List Char) : Option (List Char) × List Char :=
  match findColon l with
  | some (pre, post) =>
    match pre with
    | [] => (none, l)
    | c :: _ => if c.isAlpha ∧ pre.all schemeChar then (some (lowerChars pre), post) else (none, l)
  | none => (none, l)

/-- `urlparse(url).scheme` (lower-cased by `urlparse`). -/
def urlScheme (url : String) : String :=
  match (splitScheme url.toList).1 with
  | some s => String.mk s
  | none => ""

/-- `urlparse(url).netloc`: after the scheme, a `//` introduces the
network location, which extends to the next `/`, `?` or `#`.  Case is
preserved (the source lower-cases separately). -/
def urlNetloc (url : String) : String :=
  match (splitScheme url.toList).2 with
  | '/' :: '/' :: r => String.mk (r.takeWhile (fun c => !(c = '/' || c = '?' || c = '#')))
  | _ => ""

/-- Everything up to and including the last `/` of a URL. -/
def dropLastSegment (l : List Char) : List Char :=
  (l.reverse.dropWhile (fun c => !(c = '/'))).reverse

/-- Models `urllib.parse.urljoin` for the references that can reach the
final branch of `normalize_link` (an `href` that does not start with `/`,
`//`, `http://` or `https://`): a reference carrying its own scheme is
returned unchanged, otherwise the reference replaces the last path segment
of the base.  Dot-segments and query- or fragment-only references are
outside the modelled subset; no claim theorem evaluates this function. -/
def urljoinApprox (base rel : String) : String :=
  match findColon rel.toList with
  | some (pre, _) =>
    if pre ≠ [] ∧ pre.all schemeChar then rel
    else String.mk (dropLastSegment base.toList) ++ rel
  | none => String.mk (dropLastSegment base.toList) ++ rel

/-- Embeds `normalize_link` (lines 491-500). -/
def normalize_link (track_url href : String) : String :=
  if listStartsW "//".toList href.toList then
    urlScheme track_url ++ ":" ++ href
  else if listStartsW "/".toList href.toList then
    urlScheme track_url ++ "://" ++ urlNetloc track_url ++ href
  else if listStartsW "http://".toList href.toList || listStartsW "https://".toList href.toList then
    href
  else urljoinApprox track_url href

/-! ## Data model -/

/-- Embeds the `LinkRecord` dataclass (lines 125-131). -/
structure LinkRecord where
  category : String
  title : String
  track_url : String
  link_url : String
  link_text : String
deriving DecidableEq, Repr

/-- One simplified record of the Category Summary: the dict
`{title, track_url, shop_link}` built by `summarize_categories`. -/
structure SummaryItem where
  title : String
  track_url : String
  shop_link : String
deriving DecidableEq, Repr

/-- One `<a href=...>` element as the classifier reads it: the raw `href`
attribute and the visible text `a.get_text(strip=True)` (the BeautifulSoup
extraction itself is abstracted; these are its outputs). -/
structure Anchor where
  href : String
  text : String
deriving DecidableEq, Repr

/-- A fetched track detail page as the per-item code reads it: the text of
the `<title>` element when present, and the anchors with an `href`
(BeautifulSoup parsing abstracted). -/
structure TrackPage where
  titleText : Option String
  anchors : List Anchor
deriving DecidableEq, Repr

/-- JSON values as `json.loads` produces them, with numbers restricted to
integers (the only numbers the claims exercise; fractional and exponent
forms are outside the modelled subset).  Objects are association lists
with distinct keys in insertion order. -/
inductive JValue where
  | jnull : JValue
  | jbool : Bool → JValue
  | jint : Int → JValue
  | jstr : String → JValue
  | jlist : List JValue → JValue
  | jobj : List (String × JValue) → JValue
deriving Repr

/-- Python `d.get(key)` on an object's association list (`none` models the
`None` default for a missing key). -/
def jGet (fields : List (String × JValue)) (key : String) : Option JValue :=
  match fields.find? (fun kv => kv.1 = key) with
  | some kv => some kv.2
  | none => none

/-- Python truthiness of a JSON value. -/
def pyTruthy : JValue → Bool
  | .jnull => false
  | .jbool b => b
  | .jint n => !(n = 0)
  | .jstr s => !(s = "")
  | .jlist l => !l.isEmpty
  | .jobj l => !l.isEmpty

/-- Python `x or y` where each operand is a `dict.get` result (`none` is
`None`): the value of the first truthy operand, else the second operand. -/
def pyOr (a b : Option JValue) : Option JValue :=
  match a with
  | some v => if pyTruthy v then some v else b
  | none => b

/-- Python `int(x)` on a JSON value: `some` the result, `none` when it
raises `TypeError`/`ValueError`. -/
def pyInt : JValue → Option Int
  | .jint n => some n
  | .jbool b => some (if b then 1 else 0)
  | .jstr s => pyIntOfString s
  | _ => none

/-! ## Constants of the source (lines 21-93) -/

def DOWNLOAD_KEYWORDS : List String := ["download", "free download", "free d/l"]

/-- `LINK_KEYWORDS` (a Python set; membership queries below are
order-independent, so list order is immaterial). -/
def LINK_KEYWORDS : List String :=
  DOWNLOAD_KEYWORDS ++ ["buy", "purchase", "premiere", "kup"]

/-- `STORE_DOMAINS` in the source's dict insertion order, which is the
iteration order of `STORE_DOMAINS.items()` in `analyze_links`. -/
def STORE_DOMAINS : List (String × List String) :=
  [("bandcamp", ["bandcamp.com"]),
   ("beatport", ["beatport.com"]),
   ("junodownload", ["junodownload.com", "juno.co.uk"]),
   ("hypeddit", ["hypeddit.com", "hypd.it"])]

def CATEGORY_NAMES : List String :=
  ["hypeddit", "bandcamp", "beatport", "junodownload", "others"]

/-- The title suffixes stripped by `extract_title` (lines 479-488). -/
def SITE_SUFFIXES : List String :=
  [" | SoundCloud", " | Listen online for free on SoundCloud"]

/-! ## Item Link Classifier (`analyze_links`, lines 503-550) -/

/-- The anchor-text signal test of line 517:
`any(keyword in text_lower for keyword in LINK_KEYWORDS)`. -/
def hasLinkSignal (text : String) : Bool :=
  LINK_KEYWORDS.any (fun k => containsSub k.toList (lowerChars text.toList))

/-- The `for category, domains in STORE_DOMAINS.items()` loop of lines
520-524: first category any of whose domains occurs as a substring
(`target in domain`) of the host, else `none`. -/
def storeMatchAux : List (String × List String) → String → Option String
  | [], _ => none
  | (c, ds) :: rest, domain =>
    if ds.any (fun t => pyIn t domain) then some c else storeMatchAux rest domain

def storeMatchName (domain : String) : Option String :=
  storeMatchAux STORE_DOMAINS domain

/-- The lower-cased host of an anchor's normalized link
(`urlparse(link_url).netloc.lower()`, line 518). -/
def anchorDomain (track_url : String) (a : Anchor) : String :=
  String.mk (lowerChars (urlNetloc (normalize_link track_url (pyStrip a.href))).toList)

/-- How one anchor fares in the scan of `analyze_links`: skipped (empty
href or no keyword signal), matched to a known storefront, or an
unknown-storefront candidate. -/
inductive AnchorClass where
  | skip : AnchorClass
  | store : String → AnchorClass
  | unknown : AnchorClass
deriving DecidableEq, Repr

def AnchorClass.isStore : AnchorClass → Bool
  | .store _ => true
  | _ => false

/-- The per-anchor conditional structure of lines 509-534. -/
def classifyAnchor (track_url : String) (a : Anchor) : AnchorClass :=
  if pyStrip a.href = "" then .skip
  else if hasLinkSignal a.text then
    match storeMatchName (anchorDomain track_url a) with
    | some c => .store c
    | none => .unknown
  else .skip

/-- The Link Record emitted at line 528 for a matched anchor (title is
filled in later by `collect_track_data`). -/
def mkStoreRecord (track_url : String) (a : Anchor) (c : String) : LinkRecord :=
  ⟨c, "", track_url, normalize_link track_url (pyStrip a.href), a.text⟩

/-- `defaultdict(list)` keyed by category: a total function that is `[]`
at absent keys (the source only ever creates a key by appending to it). -/
def CatFun := String → List LinkRecord

def appendCat (f : CatFun) (c : String) (r : LinkRecord) : CatFun :=
  fun x => if x = c then f x ++ [r] else f x

/-- The mutable state of the anchor scan: `categories`,
`known_store_found`, `unknown_store_links`. -/
structure AnalyzeState where
  categories : CatFun
  known_store_found : Bool
  unknown_store_links : List (String × String)

def initState : AnalyzeState :=
  ⟨fun _ => [], false, []⟩

/-- One iteration of the `for a in soup.select("a[href]")` loop. -/
def analyzeStep (track_url : String) (st : AnalyzeState) (a : Anchor) : AnalyzeState :=
  match classifyAnchor track_url a with
  | .skip => st
  | .store c =>
    { st with
      categories := appendCat st.categories c (mkStoreRecord track_url a c)
      known_store_found := true }
  | .unknown =>
    { st with
      unknown_store_links :=
        st.unknown_store_links ++ [(normalize_link track_url (pyStrip a.href), a.text)] }

def analyzeScan (track_url : String) : List Anchor → AnalyzeState → AnalyzeState
  | [], st => st
  | a :: rest, st => analyzeScan track_url rest (analyzeStep track_url st a)

/-- The flush of buffered unknown-storefront candidates into `others`
(lines 538-543). -/
def flushUnknown (track_url : String) : CatFun → List (String × String) → CatFun
  | cs, [] => cs
  | cs, p :: rest =>
    flushUnknown track_url (appendCat cs "others" ⟨"others", "", track_url, p.1, p.2⟩) rest

/-- Embeds `analyze_links` (lines 503-550). -/
def analyze_links (track_url : String) (anchors : List Anchor) : CatFun :=
  let st := analyzeScan track_url anchors initState
  if st.known_store_found then st.categories
  else if st.unknown_store_links ≠ [] then
    flushUnknown track_url st.categories st.unknown_store_links
  else
    appendCat st.categories "others" ⟨"others", "", track_url, track_url, "No store link found"⟩

/-- The records the scan appends under category `x` (characterization of
the loop, used by the claim proofs). -/
def storeRecordsFor (track_url : String) (x : String) (as : List Anchor) : List LinkRecord :=
  as.filterMap fun a =>
    match classifyAnchor track_url a with
    | .store c => if x = c then some (mkStoreRecord track_url a c) else none
    | _ => none

/-- The buffered unknown-storefront candidates of a scan. -/
def unknownCandidates (track_url : String) (as : List Anchor) : List (String × String) :=
  as.filterMap fun a =>
    match classifyAnchor track_url a with
    | .unknown => some (normalize_link track_url (pyStrip a.href), a.text)
    | _ => none

/-- The host matching rule as the specification words it (spec side, for
comparison with the source's substring test): the host equals a known
domain or ends with a dot followed by it. -/
def specHostMatches (host dom : String) : Bool :=
  host = dom || listStartsW (("." ++ dom).toList.reverse) host.toList.reverse

/-! ## Aggregator (`summarize_categories`, lines 575-605)

The input `Dict[str, List[LinkRecord]]` is modelled as an association list
of distinct keys in dict insertion order; the output summary dict is
modelled as a total function that is `[]` outside the five fixed category
names (the source initializes exactly those keys and downstream reads use
`summary.get(category, [])`). -/

/-- The first pass (lines 579-583): the `track_url`s of all records whose
input category is neither `others` nor `other` (a Python set; only
membership is queried below). -/
def tracksInOtherCategories : List (String × List LinkRecord) → List String
  | [] => []
  | (k, rs) :: rest =>
    if k ≠ "others" ∧ k ≠ "other" then
      rs.map (fun r => r.track_url) ++ tracksInOtherCategories rest
    else tracksInOtherCategories rest

/-- Lines 587-590: `other` is an alias of `others`; any key outside
`CATEGORY_NAMES` is coerced to `others`. -/
def outputCategory (c : String) : String :=
  let oc := if c = "other" then "others" else c
  if oc ∈ CATEGORY_NAMES then oc else "others"

/-- Line 598-604: the simplified dict appended to the summary
(`link_url` renamed to `shop_link`). -/
def simplifyRecord (r : LinkRecord) : SummaryItem :=
  ⟨r.title, r.track_url, r.link_url⟩

def appendSummary (f : String → List SummaryItem) (c : String) (it : SummaryItem) :
    String → List SummaryItem :=
  fun x => if x = c then f x ++ [it] else f x

/-- The inner record loop of lines 593-604 for one input entry. -/
def summarizeRecords (skipSet : List String) (oc : String) :
    (String → List SummaryItem) → List LinkRecord → (String → List SummaryItem)
  | s, [] => s
  | s, r :: rest =>
    if oc = "others" ∧ r.track_url ∈ skipSet then summarizeRecords skipSet oc s rest
    else summarizeRecords skipSet oc (appendSummary s oc (simplifyRecord r)) rest

/-- The outer `for category, records in categorized.items()` loop. -/
def summarizeEntries (skipSet : List String) :
    (String → List SummaryItem) → List (String × List LinkRecord) → (String → List SummaryItem)
  | s, [] => s
  | s, (k, rs) :: rest =>
    summarizeEntries skipSet (summarizeRecords skipSet (outputCategory k) s rs) rest

/-- Embeds `summarize_categories`. -/
def summarize_categories (categorized : List (String × List LinkRecord)) :
    String → List SummaryItem :=
  summarizeEntries (tracksInOtherCategories categorized) (fun _ => []) categorized

/-! ## Fetch orchestrator (`fetch_track_page` lines 553-572,
`collect_track_data` lines 734-784, `extract_title` lines 479-488)

The HTTP session is abstracted as a function from URL to the outcome the
source reads: `none` for a raised `requests.RequestException`, or the
status code with the parsed page.  The delay, progress bar and logging
have no effect on the returned data and are not modelled. -/

/-- The suffix loop of `extract_title`: strip the part after the first
matching suffix (first match wins), re-stripping whitespace. -/
def applySuffixes : List String → String → String
  | [], title => title
  | suf :: rest, title =>
    if containsSub suf.toList title.toList then
      pyStrip (String.mk (beforeSub suf.toList title.toList))
    else applySuffixes rest title

/-- Embeds `extract_title`: the input is the text of the page's `<title>`
element (`none` when the element is absent). -/
def extract_title (titleText : Option String) : String :=
  match titleText with
  | some t => if t ≠ "" then applySuffixes SITE_SUFFIXES (pyStrip t) else "Unknown title"
  | none => "Unknown title"

/-- Embeds `fetch_track_page`: `none` for a request exception or a status
code of at least 400, otherwise the parsed page. -/
def fetch_track_page (response : Option (Nat × TrackPage)) : Option TrackPage :=
  match response with
  | none => none
  | some (status, page) => if status ≥ 400 then none else some page

/-- The per-item body of the `for track_url in progress` loop of
`collect_track_data`: the records this item contributes to the running
`categorized` map. -/
def trackContribution (session : String → Option (Nat × TrackPage)) (track_url : String) :
    CatFun :=
  match fetch_track_page (session track_url) with
  | none =>
    fun c =>
      if c = "others" then
        [⟨"others", "Unknown title", track_url, track_url, "Could not fetch track page"⟩]
      else []
  | some page =>
    let title := extract_title page.titleText
    let per := analyze_links track_url page.anchors
    let per :=
      if CATEGORY_NAMES.all (fun c => (per c).isEmpty) then
        fun c => if c = "others" then [⟨"others", title, track_url, track_url, "No links found"⟩] else []
      else per
    fun c => (per c).map (fun r => { r with title := title })

/-- Embeds `collect_track_data`: the `categorized` defaultdict after the
loop, as a total function (each category's list is the concatenation of
the items' contributions in item order).  The emptiness test
`if not per_track` is expressed over the five category names, the only
keys `analyze_links` can create. -/
def collect_track_data (session : String → Option (Nat × TrackPage)) :
    List String → CatFun
  | [] => fun _ => []
  | u :: rest => fun c => trackContribution session u c ++ collect_track_data session rest c

/-! ## Hydration-data extraction (`extract_links_from_hydration_data`,
lines 443-476) -/

/-- Python `declared` truthiness (`declared or ...`): `None` and `0` are
falsy. -/
def declaredTruthy : Option Int → Bool
  | some n => if n = 0 then false else true
  | none => false

/-- The check `entry.get("hydratable") != "playlist"` (lines 453). -/
def isPlaylistEntry (fields : List (String × JValue)) : Bool :=
  match jGet fields "hydratable" with
  | some (.jstr s) => s = "playlist"
  | _ => false

/-- An entry the loop skips: not a dict, or not tagged `playlist`. -/
def skipEntry : JValue → Bool
  | .jobj fields => !(isPlaylistEntry fields)
  | _ => true

/-- Lines 457-462: `declared = declared or int(track_count)` inside
`try/except`, guarded by `track_count is not None`.  When `declared` is
truthy the `or` short-circuits (so `int` is not even evaluated); when it
is falsy (`None` or `0`) the parsed value replaces it, and a parse failure
leaves it unchanged (the exception is swallowed). -/
def stepTrackCount (dataFields : List (String × JValue)) (declared : Option Int) : Option Int :=
  match jGet dataFields "track_count" with
  | none => declared
  | some .jnull => declared
  | some tc =>
    if declaredTruthy declared then declared
    else
      match pyInt tc with
      | some v => some v
      | none => declared

/-- Lines 464-466: fall back to `len(tracks)` only when `tracks` is a list
and `declared is None`. -/
def stepLenFallback (tracks : JValue) (declared : Option Int) : Option Int :=
  match tracks with
  | .jlist l => if declared = none then some (l.length : Int) else declared
  | _ => declared

/-- The `for track in tracks` loop (lines 468-474).  Non-dict elements are
skipped by the `isinstance` check; a truthy non-string permalink makes
`urlparse` raise, which propagates out of the function (`Except.error`). -/
def tracksLoop : List JValue → List String → Except Unit (List String)
  | [], links => .ok links
  | .jobj fields :: rest, links =>
    match pyOr (jGet fields "permalink_url") (jGet fields "permalink") with
    | none => tracksLoop rest links
    | some v =>
      if pyTruthy v then
        match v with
        | .jstr s => tracksLoop rest (setAdd links (clean_track_url s))
        | _ => .error ()
      else tracksLoop rest links
  | _ :: rest, links => tracksLoop rest links

/-- Iterating `tracks` when it is not a list: a string or a dict iterates
over characters or keys, none of which are dicts, so every element is
skipped; any other value raises `TypeError`, which propagates. -/
def tracksIter (tracks : JValue) (links : List String) : Except Unit (List String) :=
  match tracks with
  | .jlist l => tracksLoop l links
  | .jstr _ => .ok links
  | .jobj _ => .ok links
  | _ => .error ()

/-- The body of one playlist-tagged entry (lines 456-474) given its
`data` dict: the track-count update, the length fallback, and the tracks
loop; the updated `(links, declared)` pair, or the escaping exception. -/
def playlistEntryStep (dataFields : List (String × JValue)) (links : List String)
    (declared : Option Int) : Except Unit (List String × Option Int) :=
  match tracksIter ((jGet dataFields "tracks").getD (.jlist [])) links with
  | .ok links2 =>
    .ok (links2, stepLenFallback ((jGet dataFields "tracks").getD (.jlist []))
      (stepTrackCount dataFields declared))
  | .error u => .error u

/-- The `for entry in dataset` loop of `extract_links_from_hydration_data`.
`entry.get("data", {})` defaults to an empty dict; calling `.get` on a
non-dict `data` raises `AttributeError`, which propagates
(`Except.error`). -/
def hydrationEntries : List JValue → List String → Option Int →
    Except Unit (List String × Option Int)
  | [], links, declared => .ok (links, declared)
  | .jobj fields :: rest, links, declared =>
    if isPlaylistEntry fields then
      match (jGet fields "data").getD (.jobj []) with
      | .jobj dataFields =>
        match playlistEntryStep dataFields links declared with
        | .ok (links2, declared2) => hydrationEntries rest links2 declared2
        | .error u => .error u
      | _ => .error ()
    else hydrationEntries rest links declared
  | _ :: rest, links, declared => hydrationEntries rest links declared

/-- Embeds `extract_links_from_hydration_data`: the collected permalink
set (as a duplicate-free list) and the declared count; `Except.error`
models an escaping exception. -/
def extract_links_from_hydration_data : JValue → Except Unit (List String × Option Int)
  | .jlist entries => hydrationEntries entries [] none
  | _ => .ok ([], none)

/-- A well-formed playlist hydration entry with the given `data` dict. -/
def mkPlaylistEntry (dataFields : List (String × JValue)) : JValue :=
  .jobj [("hydratable", .jstr "playlist"), ("data", .jobj dataFields)]

/-! ## `json.loads` model

A recursive-descent parser over the `JValue` subset: numbers must be
integers without fraction or exponent (Python would produce floats there,
which no claim exercises), string escapes cover the simple JSON escapes
(`\uXXXX` is outside the modelled subset), and strict-mode control
characters are rejected inside strings.  Recursion is bounded by a fuel
that exceeds any possible nesting and element count of the input, so fuel
exhaustion cannot occur on inputs the claims evaluate (only the empty
string is ever parsed inside a proof). -/

def skipWs (l : List Char) : List Char :=
  l.dropWhile (fun c => c = ' ' || c = '\t' || c = '\n' || c = '\r')

/-- JSON number: optional minus, integer part without leading zeros;
fraction or exponent parts are outside the modelled subset and fail. -/
def parseJNumber (l : List Char) : Option (JValue × List Char) :=
  let core : List Char → Option (Nat × List Char) := fun m =>
    match m with
    | '0' :: rest => some (0, rest)
    | c :: _ =>
      if c.isDigit then
        let ds := m.takeWhile Char.isDigit
        some (digitsVal ds, m.drop ds.length)
      else none
    | [] => none
  match l with
  | '-' :: rest =>
    match core rest with
    | some (n, r) =>
      match r with
      | '.' :: _ => none
      | 'e' :: _ => none
      | 'E' :: _ => none
      | _ => some (.jint (-(n : Int)), r)
    | none => none
  | _ =>
    match core l with
    | some (n, r) =>
      match r with
      | '.' :: _ => none
      | 'e' :: _ => none
      | 'E' :: _ => none
      | _ => some (.jint (n : Int), r)
    | none => none

/-- JSON string body after the opening quote. -/
def parseJStringAux : List Char → List Char → Option (String × List Char)
  | acc, '"' :: rest => some (String.mk acc.reverse, rest)
  | acc, '\\' :: e :: rest =>
    match e with
    | '"' => parseJStringAux ('"' :: acc) rest
    | '\\' => parseJStringAux ('\\' :: acc) rest
    | '/' => parseJStringAux ('/' :: acc) rest
    | 'n' => parseJStringAux ('\n' :: acc) rest
    | 't' => parseJStringAux ('\t' :: acc) rest
    | 'r' => parseJStringAux ('\r' :: acc) rest
    | 'b' => parseJStringAux ('\x08' :: acc) rest
    | 'f' => parseJStringAux ('\x0c' :: acc) rest
    | _ => none
  | _, '\\' :: [] => none
  | acc, c :: rest => if c.toNat < 32 then none else parseJStringAux (c :: acc) rest
  | _, [] => none

mutual

def parseJValue : Nat → List Char → Option (JValue × List Char)
  | 0, _ => none
  | fuel + 1, l =>
    match skipWs l with
    | 'n' :: 'u' :: 'l' :: 'l' :: rest => some (.jnull, rest)
    | 't' :: 'r' :: 'u' :: 'e' :: rest => some (.jbool true, rest)
    | 'f' :: 'a' :: 'l' :: 's' :: 'e' :: rest => some (.jbool false, rest)
    | '"' :: rest =>
      match parseJStringAux [] rest with
      | some (s, r) => some (.jstr s, r)
      | none => none
    | '[' :: rest =>
      match skipWs rest with
      | ']' :: r => some (.jlist [], r)
      | m =>
        match parseJArrayItems fuel m with
        | some (vs, r) => some (.jlist vs, r)
        | none => none
    | '{' :: rest =>
      match skipWs rest with
      | '}' :: r => some (.jobj [], r)
      | m =>
        match parseJObjectItems fuel m with
        | some (kvs, r) => some (.jobj kvs, r)
        | none => none
    | m => parseJNumber m

def parseJArrayItems : Nat → List Char → Option (List JValue × List Char)
  | 0, _ => none
  | fuel + 1, l =>
    match parseJValue fuel l with
    | some (v, r) =>
      match skipWs r with
      | ',' :: r2 =>
        match parseJArrayItems fuel r2 with
        | some (vs, r3) => some (v :: vs, r3)
        | none => none
      | ']' :: r2 => some ([v], r2)
      | _ => none
    | none => none

def parseJObjectItems : Nat → List Char → Option (List (String × JValue) × List Char)
  | 0, _ => none
  | fuel + 1, l =>
    match skipWs l with
    | '"' :: rest =>
      match parseJStringAux [] rest with
      | some (k, r) =>
        match skipWs r with
        | ':' :: r2 =>
          match parseJValue fuel r2 with
          | some (v, r3) =>
            match skipWs r3 with
            | ',' :: r4 =>
              match parseJObjectItems fuel r4 with
              | some (kvs, r5) => some ((k, v) :: kvs, r5)
              | none => none
            | '}' :: r4 => some ([(k, v)], r4)
            | _ => none
          | none => none
        | _ => none
      | none => none
    | _ => none

end

/-- `json.loads`: parse one value, allow trailing whitespace only. -/
def jsonParse (s : String) : Except Unit JValue :=
  match parseJValue (2 * (s.length + 1)) s.toList with
  | some (v, rest) => if skipWs rest = [] then .ok v else .error ()
  | none => .error ()

/-! ## Script-tag hydration scan (`load_tracks_from_html_file`,
lines 299-348)

The BeautifulSoup side is abstracted: the inputs are the anchor-derived
link set (output of `parse_track_links_from_html`), the list of script
bodies that have inline text (`script.string`), and the visible-text
declared count (output of `extract_declared_track_count`). -/

/-- The depth-tracking character loop of lines 325-334 over
`range(array_start, min(array_start + 50000, len(script_content)))`:
`some (i + 1)` for the index just past the bracket closing the first `[`,
`none` when the window (the fuel) or the text ends first. -/
def bracketScanAux : List Char → Int → Nat → Nat → Option Nat
  | [], _, _, _ => none
  | _, _, _, 0 => none
  | c :: rest, depth, i, fuel + 1 =>
    if c = '[' then bracketScanAux rest (depth + 1) (i + 1) fuel
    else if c = ']' then
      if depth - 1 = 0 then some (i + 1) else bracketScanAux rest (depth - 1) (i + 1) fuel
    else bracketScanAux rest depth (i + 1) fuel

/-- `end_idx` after the loop: the closing position, or the initial value
`array_start` when the loop never broke. -/
def bracketEnd (l : List Char) (array_start : Nat) : Nat :=
  match bracketScanAux (l.drop array_start) 0 array_start (min 50000 (l.length - array_start)) with
  | some e => e
  | none => array_start

/-- The body of the per-script conditional (lines 309-345) for one script
text: the links and declared count this script contributes.  Every
exception inside is swallowed by the `except Exception: pass` handlers, so
a failed occurrence contributes `([], none)`. -/
def processScript (script_content : String) : List String × Option Int :=
  if containsSub "__sc_hydration".toList script_content.toList
      || containsSub "sc_hydration".toList script_content.toList then
    match listFindSub "window.__sc_hydration".toList script_content.toList 0 with
    | none => ([], none)
    | some start_idx =>
      match findCharFrom script_content.toList '[' start_idx with
      | none => ([], none)
      | some array_start =>
        match jsonParse (String.mk ((script_content.toList.drop array_start).take
            (bracketEnd script_content.toList array_start - array_start))) with
        | .error _ => ([], none)
        | .ok v =>
          match extract_links_from_hydration_data v with
          | .error _ => ([], none)
          | .ok r => r
  else ([], none)

/-- One iteration of the script-tag loop: `hydration_links.update(links)`
and `if declared_count is None: declared_count = declared`. -/
def hydrationFoldStep (acc : List String × Option Int) (sc : String) :
    List String × Option Int :=
  (setUnionList acc.1 (processScript sc).1,
   if acc.2 = none then (processScript sc).2 else acc.2)

/-- Embeds the extraction core of `load_tracks_from_html_file`: fold the
script bodies (first script's declared count wins), union the anchor link
set with the hydration links, sort; fall back to the visible-text count
when no script produced one. -/
def load_tracks_core (track_links : List String) (scripts : List String)
    (textDeclared : Option Int) : List String × Option Int :=
  (sortStrings (setUnionList (dedupList track_links)
      (scripts.foldl hydrationFoldStep ([], none)).1),
   if (scripts.foldl hydrationFoldStep ([], none)).2 = none then textDeclared
   else (scripts.foldl hydrationFoldStep ([], none)).2)

/-! ## Declared track count (`extract_declared_track_count`,
lines 411-438)

The BeautifulSoup side is abstracted: the first input is the
`content`/`value` attributes of the `numTracks` meta element (`none` when
the element is absent), the second the flattened visible text
`soup.get_text(" ", strip=True)`.  The two `re.search` patterns are
modelled directly; since `\s*`/`\s+`/`\d` classes are disjoint from what
follows them, the backtracking behaviour collapses to the greedy scans
implemented here (ASCII subset of `\d`, `\s`, `\w`). -/

/-- The `content`/`value` attributes of the `numTracks` meta element. -/
structure NumTracksMeta where
  content : Option String
  value : Option String
deriving DecidableEq, Repr

/-- Python `meta.get("content") or meta.get("value")`. -/
def pyOrStr (a b : Option String) : Option String :=
  match a with
  | some s => if s ≠ "" then some s else b
  | none => b

/-- The meta-element block of lines 414-421. -/
def metaDeclaredCount (meta : Option NumTracksMeta) : Option Int :=
  match meta with
  | some m =>
    match pyOrStr m.content m.value with
    | some c => if c ≠ "" then pyIntOfString c else none
    | none => none
  | none => none

/-- Regex word character `\w` (ASCII subset). -/
def wordChar (c : Char) : Bool :=
  c.isAlphanum || c = '_'

/-- Match `Contains tracks\s*(\d+)` (IGNORECASE) anchored at the front of
`l`: the captured number. -/
def matchContainsAt (l : List Char) : Option Nat :=
  match dropLiteralCI "contains tracks".toList l with
  | some rest =>
    let rest2 := rest.dropWhile pyWS
    let ds := rest2.takeWhile Char.isDigit
    if ds ≠ [] then some (digitsVal ds) else none
  | none => none

/-- `re.search(r"Contains tracks\s*(\d+)", text, IGNORECASE)`: leftmost
match wins. -/
def searchContains : List Char → Option Nat
  | [] => none
  | l@(_ :: rest) =>
    match matchContainsAt l with
    | some n => some n
    | none => searchContains rest

/-- Match `\b(\d{1,4})\s+tracks?\b` (IGNORECASE) anchored at the front of
`l`, where `prev` is the character before `l` (`none` at the start of the
text).  A digit run longer than 4 fails at this position (every greedy
retreat still faces a digit where `\s` is required). -/
def matchInlineAt (prev : Option Char) (l : List Char) : Option Nat :=
  let boundary :=
    match prev with
    | none => true
    | some p => !(wordChar p)
  if boundary then
    let ds := l.takeWhile Char.isDigit
    if ds ≠ [] ∧ ds.length ≤ 4 then
      let rest := l.drop ds.length
      let sp := rest.takeWhile pyWS
      if sp ≠ [] then
        match dropLiteralCI "track".toList (rest.drop sp.length) with
        | some r3 =>
          match r3 with
          | c :: r4 =>
            let tailBoundary : Bool :=
              match r4 with
              | [] => true
              | d :: _ => !(wordChar d)
            if c.toLower = 's' ∧ tailBoundary = true then some (digitsVal ds)
            else if !(wordChar c) then some (digitsVal ds)
            else none
          | [] => some (digitsVal ds)
        | none => none
      else none
    else none
  else none

/-- `re.search(r"\b(\d{1,4})\s+tracks?\b", text, IGNORECASE)`: leftmost
match wins. -/
def searchInline : Option Char → List Char → Option Nat
  | _, [] => none
  | prev, l@(c :: rest) =>
    match matchInlineAt prev l with
    | some n => some n
    | none => searchInline (some c) rest

/-- Embeds `extract_declared_track_count`: the meta element first, then
the two text patterns in order, then `none`. -/
def extract_declared_track_count (meta : Option NumTracksMeta) (text : String) : Option Int :=
  match metaDeclaredCount meta with
  | some n => some n
  | none =>
    match searchContains text.toList with
    | some n => some (n : Int)
    | none =>
      match searchInline none text.toList with
      | some n => some (n : Int)
      | none => none

/-! ## Summary-file loader validation (`load_json_file`, lines 243-277)

File IO and `json.load` are abstracted: the input is the parsed JSON
root.  The validation loop raises on the first offending shape; error
messages are abbreviated to their fixed prefixes. -/

/-- An array item acceptable to the loader: a dict with a `track_url`
key. -/
def itemIsDictWithUrl : JValue → Bool
  | .jobj fields => (jGet fields "track_url").isSome
  | _ => false

/-- The inner item loop of lines 264-268. -/
def checkItems (category : String) : List JValue → Except String Unit
  | [] => .ok ()
  | .jobj fields :: rest =>
    if (jGet fields "track_url").isSome then checkItems category rest
    else .error ("Items in category " ++ category ++ " must have track_url field")
  | _ :: _ => .error ("Items in category " ++ category ++ " must be dictionaries")

/-- The outer category loop of lines 260-268. -/
def checkCategories : List (String × JValue) → Except String Unit
  | [] => .ok ()
  | (category, items) :: rest =>
    match items with
    | .jlist l =>
      match checkItems category l with
      | .ok _ => checkCategories rest
      | .error e => .error e
    | _ => .error ("Category " ++ category ++ " must contain a list")

/-- Embeds the validation of `load_json_file` on the parsed root. -/
def load_json_file (data : JValue) : Except String JValue :=
  match data with
  | .jobj entries =>
    match checkCategories entries with
    | .ok _ => .ok data
    | .error e => .error e
  | _ => .error "JSON file must contain a dictionary"

/-- A category value acceptable to the loader: a list of acceptable
items. -/
def categoryValueOk : JValue → Bool
  | .jlist items => items.all itemIsDictWithUrl
  | _ => false

/-- The accepted shapes, written after the claim: a dict of lists of dicts
each carrying `track_url`. -/
def validSummaryShape : JValue → Bool
  | .jobj entries => entries.all fun kv => categoryValueOk kv.2
  | _ => false

deriving instance DecidableEq for Except

/-! # Theorems -/

/-! ## C4, C5: URL canonicalization -/

/-- C4: the claim states `clean(clean(u)) == clean(u)` for every URL `u`.
The code violates it: `cleaned_query` already starts with `?` and
`geturl()` prepends a second `?` in front of any non-empty query, so each
pass through `clean_track_url` adds one more `?` to a URL whose query
survives filtering.  At the failing input
`https://x/a/b?in=abc&q=1` the first pass returns `https://x/a/b??q=1`
and the second `https://x/a/b???q=1`. -/
theorem c4_clean_not_idempotent :
    clean_track_url "https://x/a/b?in=abc&q=1" = "https://x/a/b??q=1" ∧
    clean_track_url (clean_track_url "https://x/a/b?in=abc&q=1") = "https://x/a/b???q=1" ∧
    clean_track_url (clean_track_url "https://x/a/b?in=abc&q=1")
      ≠ clean_track_url "https://x/a/b?in=abc&q=1" := by
  refine ⟨by decide, by decide, by decide⟩

/-- C5: the claim states `clean("https://x/a/b?in=abc&q=1") ==
"https://x/a/b?q=1"`.  The code instead returns `https://x/a/b??q=1`
(the doubled `?` of the reassembly slip); the `in=` parameter is indeed
dropped and `q=1` kept, but the reassembled URL differs from the one the
claim requires. -/
theorem c5_clean_tracking_params :
    clean_track_url "https://x/a/b?in=abc&q=1" = "https://x/a/b??q=1" ∧
    clean_track_url "https://x/a/b?in=abc&q=1" ≠ "https://x/a/b?q=1" := by
  refine ⟨by decide, by decide⟩

/-! ## C10: summary-file loader validation -/

theorem except_isOk_ok {ε α : Type} (u : α) : (Except.ok u : Except ε α).isOk = true := rfl

theorem except_isOk_error {ε α : Type} (e : ε) : (Except.error e : Except ε α).isOk = false := rfl

theorem checkItems_isOk (category : String) (l : List JValue) :
    (checkItems category l).isOk = l.all itemIsDictWithUrl := by
  induction l with
  | nil => rfl
  | cons it rest ih =>
    cases it with
    | jobj fields =>
      by_cases h : (jGet fields "track_url").isSome = true
      · simp only [checkItems, h, if_true, List.all_cons, itemIsDictWithUrl, ih, Bool.true_and]
      · rw [Bool.not_eq_true] at h
        simp only [checkItems, h, Bool.false_eq_true, if_false, List.all_cons, itemIsDictWithUrl,
          except_isOk_error, Bool.false_and]
    | jnull => simp only [checkItems, List.all_cons, itemIsDictWithUrl, except_isOk_error,
        Bool.false_and]
    | jbool b => simp only [checkItems, List.all_cons, itemIsDictWithUrl, except_isOk_error,
        Bool.false_and]
    | jint n => simp only [checkItems, List.all_cons, itemIsDictWithUrl, except_isOk_error,
        Bool.false_and]
    | jstr s => simp only [checkItems, List.all_cons, itemIsDictWithUrl, except_isOk_error,
        Bool.false_and]
    | jlist l2 => simp only [checkItems, List.all_cons, itemIsDictWithUrl, except_isOk_error,
        Bool.false_and]

theorem checkCategories_isOk (entries : List (String × JValue)) :
    (checkCategories entries).isOk = entries.all (fun kv => categoryValueOk kv.2) := by
  induction entries with
  | nil => rfl
  | cons kv rest ih =>
    obtain ⟨category, items⟩ := kv
    cases items with
    | jlist l =>
      have hitems := checkItems_isOk category l
      simp only [checkCategories, List.all_cons, categoryValueOk]
      cases hci : checkItems category l with
      | ok u =>
        rw [hci, except_isOk_ok] at hitems
        simp only [ih, ← hitems, Bool.true_and]
        rfl
      | error e =>
        rw [hci, except_isOk_error] at hitems
        simp only [← hitems, except_isOk_error, Bool.false_and]
    | jnull => simp only [checkCategories, List.all_cons, categoryValueOk, except_isOk_error,
        Bool.false_and]
    | jbool b => simp only [checkCategories, List.all_cons, categoryValueOk, except_isOk_error,
        Bool.false_and]
    | jint n => simp only [checkCategories, List.all_cons, categoryValueOk, except_isOk_error,
        Bool.false_and]
    | jstr s => simp only [checkCategories, List.all_cons, categoryValueOk, except_isOk_error,
        Bool.false_and]
    | jobj l2 => simp only [checkCategories, List.all_cons, categoryValueOk, except_isOk_error,
        Bool.false_and]

/-- C10: the loader accepts a parsed root exactly when it is a dict whose
values are lists of dicts each carrying `track_url` — so category keys
outside the closed tag set are accepted (first example) and items missing
`title`/`shop_link` are accepted (second example); everything outside
these four rejected shapes loads. -/
theorem c10_loader_shape :
    (∀ data : JValue, (load_json_file data).isOk = validSummaryShape data) ∧
    (load_json_file
      (.jobj [("weirdcategory",
        .jlist [.jobj [("track_url", .jstr "https://soundcloud.com/a/t")]])])).isOk = true ∧
    (load_json_file (.jobj [("bandcamp", .jlist [.jobj [("track_url", .jstr "u")]])])).isOk
      = true := by
  refine ⟨?_, by decide, by decide⟩
  intro data
  cases data with
  | jobj entries =>
    have h := checkCategories_isOk entries
    simp only [load_json_file, validSummaryShape]
    cases hcc : checkCategories entries with
    | ok u =>
      rw [hcc, except_isOk_ok] at h
      simp only [except_isOk_ok, ← h]
    | error e =>
      rw [hcc, except_isOk_error] at h
      simp only [except_isOk_error, ← h]
  | jnull => rfl
  | jbool b => rfl
  | jint n => rfl
  | jstr s => rfl
  | jlist l => rfl

/-! ## C2, C3: Item Link Classifier -/

theorem storeMatchAux_mem (l : List (String × List String)) (d c : String)
    (h : storeMatchAux l d = some c) :
    ∃ ds, (c, ds) ∈ l ∧ ds.any (fun t => pyIn t d) = true := by
  induction l with
  | nil => simp [storeMatchAux] at h
  | cons cd rest ih =>
    obtain ⟨c0, ds0⟩ := cd
    by_cases hm : ds0.any (fun t => pyIn t d) = true
    · simp only [storeMatchAux, hm, if_true, Option.some.injEq] at h
      exact ⟨ds0, by simp [← h], hm⟩
    · simp only [storeMatchAux, hm, Bool.false_eq_true, if_false] at h
      obtain ⟨ds, hmem, hany⟩ := ih h
      exact ⟨ds, List.mem_cons_of_mem _ hmem, hany⟩

theorem store_key_ne_others (c : String) (ds : List String)
    (h : (c, ds) ∈ STORE_DOMAINS) : c ≠ "others" := by
  simp only [STORE_DOMAINS, List.mem_cons, List.not_mem_nil, or_false, Prod.mk.injEq] at h
  rcases h with ⟨hc, _⟩ | ⟨hc, _⟩ | ⟨hc, _⟩ | ⟨hc, _⟩ <;> subst hc <;> decide

theorem storeMatchName_ne_others (d c : String) (h : storeMatchName d = some c) :
    c ≠ "others" := by
  obtain ⟨ds, hmem, _⟩ := storeMatchAux_mem _ _ _ h
  exact store_key_ne_others c ds hmem

theorem classifyAnchor_eq_store (u : String) (a : Anchor) (c : String) :
    classifyAnchor u a = .store c ↔
      pyStrip a.href ≠ "" ∧ hasLinkSignal a.text = true ∧
        storeMatchName (anchorDomain u a) = some c := by
  unfold classifyAnchor
  by_cases h1 : pyStrip a.href = ""
  · simp [h1]
  · by_cases h2 : hasLinkSignal a.text = true
    · cases hm : storeMatchName (anchorDomain u a) with
      | some c0 => simp [h1, h2, hm]
      | none => simp [h1, h2, hm]
    · simp [h1, h2]

theorem classifyAnchor_eq_unknown (u : String) (a : Anchor) :
    classifyAnchor u a = .unknown ↔
      pyStrip a.href ≠ "" ∧ hasLinkSignal a.text = true ∧
        storeMatchName (anchorDomain u a) = none := by
  unfold classifyAnchor
  by_cases h1 : pyStrip a.href = ""
  · simp [h1]
  · by_cases h2 : hasLinkSignal a.text = true
    · cases hm : storeMatchName (anchorDomain u a) with
      | some c0 => simp [h1, h2, hm]
      | none => simp [h1, h2, hm]
    · simp [h1, h2]

theorem analyzeScan_known (u : String) (as : List Anchor) (st : AnalyzeState) :
    (analyzeScan u as st).known_store_found
      = (st.known_store_found || as.any fun a => (classifyAnchor u a).isStore) := by
  induction as generalizing st with
  | nil => simp [analyzeScan]
  | cons a rest ih =>
    simp only [analyzeScan, List.any_cons]
    rw [ih]
    cases hc : classifyAnchor u a with
    | skip => simp [analyzeStep, hc, AnchorClass.isStore]
    | store c => simp [analyzeStep, hc, AnchorClass.isStore]
    | unknown => simp [analyzeStep, hc, AnchorClass.isStore]

theorem analyzeScan_categories (u : String) (as : List Anchor) (st : AnalyzeState) (x : String) :
    (analyzeScan u as st).categories x = st.categories x ++ storeRecordsFor u x as := by
  induction as generalizing st with
  | nil => simp [analyzeScan, storeRecordsFor]
  | cons a rest ih =>
    simp only [analyzeScan, storeRecordsFor, List.filterMap_cons]
    rw [ih]
    cases hc : classifyAnchor u a with
    | skip => simp [analyzeStep, hc, storeRecordsFor]
    | store c =>
      by_cases hx : x = c
      · subst hx
        simp [analyzeStep, hc, appendCat, storeRecordsFor]
      · simp [analyzeStep, hc, appendCat, hx, storeRecordsFor]
    | unknown => simp [analyzeStep, hc, storeRecordsFor]

theorem analyzeScan_unknown (u : String) (as : List Anchor) (st : AnalyzeState) :
    (analyzeScan u as st).unknown_store_links
      = st.unknown_store_links ++ unknownCandidates u as := by
  induction as generalizing st with
  | nil => simp [analyzeScan, unknownCandidates]
  | cons a rest ih =>
    simp only [analyzeScan, unknownCandidates, List.filterMap_cons]
    rw [ih]
    cases hc : classifyAnchor u a with
    | skip => simp [analyzeStep, hc, unknownCandidates]
    | store c => simp [analyzeStep, hc, unknownCandidates]
    | unknown => simp [analyzeStep, hc, unknownCandidates]

theorem flushUnknown_cat (u : String) (pend : List (String × String)) (cs : CatFun) (x : String) :
    flushUnknown u cs pend x
      = cs x ++ (if x = "others"
          then pend.map (fun p => (⟨"others", "", u, p.1, p.2⟩ : LinkRecord)) else []) := by
  induction pend generalizing cs with
  | nil => simp [flushUnknown]
  | cons p rest ih =>
    simp only [flushUnknown, List.map_cons]
    rw [ih]
    by_cases hx : x = "others"
    · subst hx
      simp [appendCat]
    · simp [appendCat, hx]

/-- C2: on a page with at least one signal-bearing anchor matching a known
storefront and at least one signal-bearing anchor matching none, the
classifier emits no catch-all (`others`) record at all, and every record
it does emit under any category comes from a signal-bearing anchor whose
host matched that storefront category — the buffered unknown-storefront
candidates are discarded. -/
theorem c2_storefront_precedence (u : String) (anchors : List Anchor)
    (hknown : ∃ a ∈ anchors, pyStrip a.href ≠ "" ∧ hasLinkSignal a.text = true ∧
      (storeMatchName (anchorDomain u a)).isSome = true)
    (_hunknown : ∃ a ∈ anchors, pyStrip a.href ≠ "" ∧ hasLinkSignal a.text = true ∧
      storeMatchName (anchorDomain u a) = none) :
    analyze_links u anchors "others" = [] ∧
    ∀ c r, r ∈ analyze_links u anchors c →
      ∃ a ∈ anchors, pyStrip a.href ≠ "" ∧ hasLinkSignal a.text = true ∧
        storeMatchName (anchorDomain u a) = some c ∧ r = mkStoreRecord u a c := by
  obtain ⟨a0, ha0mem, h1, h2, h3⟩ := hknown
  obtain ⟨c0, hc0⟩ := Option.isSome_iff_exists.mp h3
  have hclass : classifyAnchor u a0 = .store c0 :=
    (classifyAnchor_eq_store u a0 c0).mpr ⟨h1, h2, hc0⟩
  have hany : (anchors.any fun a => (classifyAnchor u a).isStore) = true := by
    rw [List.any_eq_true]
    exact ⟨a0, ha0mem, by simp [hclass, AnchorClass.isStore]⟩
  have hknownb : (analyzeScan u anchors initState).known_store_found = true := by
    rw [analyzeScan_known, hany, Bool.or_true]
  have hanalyze : ∀ x, analyze_links u anchors x = storeRecordsFor u x anchors := by
    intro x
    unfold analyze_links
    simp only [hknownb, if_true]
    rw [analyzeScan_categories]
    simp [initState]
  constructor
  · rw [hanalyze]
    unfold storeRecordsFor
    rw [List.filterMap_eq_nil_iff]
    intro a ha
    cases hc : classifyAnchor u a with
    | skip => simp
    | unknown => simp
    | store c =>
      have hsm : storeMatchName (anchorDomain u a) = some c :=
        ((classifyAnchor_eq_store u a c).mp hc).2.2
      have hne := storeMatchName_ne_others _ _ hsm
      simp
      exact fun h => hne h.symm
  · intro c r hr
    rw [hanalyze] at hr
    unfold storeRecordsFor at hr
    rw [List.mem_filterMap] at hr
    obtain ⟨a, hamem, hfa⟩ := hr
    cases hc : classifyAnchor u a with
    | skip => rw [hc] at hfa; simp at hfa
    | unknown => rw [hc] at hfa; simp at hfa
    | store c1 =>
      rw [hc] at hfa
      by_cases hcc : c = c1
      · subst hcc
        simp only [if_true, Option.some.injEq] at hfa
        obtain ⟨g1, g2, g3⟩ := (classifyAnchor_eq_store u a c).mp hc
        exact ⟨a, hamem, g1, g2, g3, hfa.symm⟩
      · simp [hcc] at hfa

/-- C2 witness: a page with a bandcamp-host "Free Download" anchor and an
unknown-host "Buy here" anchor satisfies both hypotheses, and the
classifier's catch-all bucket is empty. -/
theorem c2_witness :
    (∃ a ∈ ([⟨"https://shop.bandcamp.com/album/x", "Free Download"⟩,
             ⟨"https://example.com/buy", "Buy here"⟩] : List Anchor),
      pyStrip a.href ≠ "" ∧ hasLinkSignal a.text = true ∧
        (storeMatchName (anchorDomain "https://soundcloud.com/artist/track" a)).isSome = true) ∧
    (∃ a ∈ ([⟨"https://shop.bandcamp.com/album/x", "Free Download"⟩,
             ⟨"https://example.com/buy", "Buy here"⟩] : List Anchor),
      pyStrip a.href ≠ "" ∧ hasLinkSignal a.text = true ∧
        storeMatchName (anchorDomain "https://soundcloud.com/artist/track" a) = none) ∧
    analyze_links "https://soundcloud.com/artist/track"
      [⟨"https://shop.bandcamp.com/album/x", "Free Download"⟩,
       ⟨"https://example.com/buy", "Buy here"⟩] "others" = [] := by
  refine ⟨by decide, by decide, ?_⟩
  exact (c2_storefront_precedence _ _ (by decide) (by decide)).1

/-- C3 counterexample: the claim says a host that merely contains a known
domain as an inner substring is not classified under that storefront tag.
The code classifies by substring (`target in domain`), so the host
`bandcamp.com.evil.com` — which is neither equal to `bandcamp.com` nor a
dot-suffix match for it — is filed under `bandcamp`. -/
theorem c3_counterexample :
    analyze_links "https://soundcloud.com/artist/track"
      [⟨"https://bandcamp.com.evil.com/x", "Buy now"⟩] "bandcamp"
      = [⟨"bandcamp", "", "https://soundcloud.com/artist/track",
          "https://bandcamp.com.evil.com/x", "Buy now"⟩] ∧
    specHostMatches "bandcamp.com.evil.com" "bandcamp.com" = false := by
  refine ⟨by decide, by decide⟩

/-- C3 amended: for a signal-bearing anchor, the classifier assigns a
storefront tag `c` iff `c` is the first tag in the fixed `STORE_DOMAINS`
order one of whose known domains occurs as a substring of the link URL's
lower-cased host (`storeMatchName`); the catch-all fires exactly when no
tag matches; and any assigned tag does have a domain occurring as a
substring of the host (not necessarily as a host suffix). -/
theorem c3_amended (u : String) (a : Anchor)
    (h1 : pyStrip a.href ≠ "") (h2 : hasLinkSignal a.text = true) :
    (∀ c ds, (c, ds) ∈ STORE_DOMAINS →
      ((analyze_links u [a] c ≠ []) ↔ storeMatchName (anchorDomain u a) = some c)) ∧
    ((analyze_links u [a] "others" ≠ []) ↔ storeMatchName (anchorDomain u a) = none) ∧
    (∀ c, storeMatchName (anchorDomain u a) = some c →
      ∃ ds, (c, ds) ∈ STORE_DOMAINS ∧ ds.any (fun t => pyIn t (anchorDomain u a)) = true) := by
  cases hm : storeMatchName (anchorDomain u a) with
  | some c0 =>
    have hclass : classifyAnchor u a = .store c0 :=
      (classifyAnchor_eq_store u a c0).mpr ⟨h1, h2, hm⟩
    have hknownb : (analyzeScan u [a] initState).known_store_found = true := by
      rw [analyzeScan_known]
      simp [hclass, AnchorClass.isStore, initState]
    have hanalyze : ∀ x, analyze_links u [a] x = storeRecordsFor u x [a] := by
      intro x
      unfold analyze_links
      simp only [hknownb, if_true]
      rw [analyzeScan_categories]
      simp [initState]
    have hrecords : ∀ x, storeRecordsFor u x [a]
        = if x = c0 then [mkStoreRecord u a c0] else [] := by
      intro x
      unfold storeRecordsFor
      simp only [List.filterMap_cons, List.filterMap_nil, hclass]
      by_cases hx : x = c0
      · simp [hx]
      · simp [hx]
    refine ⟨?_, ?_, ?_⟩
    · intro c ds hmem
      rw [hanalyze, hrecords]
      by_cases hc : c = c0
      · subst hc
        simp
      · simp [hc]
        exact fun h => hc h.symm
    · have hno : ¬("others" = c0) := by
        have := storeMatchName_ne_others _ _ hm
        exact fun h => this h.symm
      rw [hanalyze, hrecords]
      simp [hno]
    · intro c hc
      obtain rfl : c0 = c := by injection hc
      exact storeMatchAux_mem _ _ _ hm
  | none =>
    have hclass : classifyAnchor u a = .unknown :=
      (classifyAnchor_eq_unknown u a).mpr ⟨h1, h2, hm⟩
    have hknownb : (analyzeScan u [a] initState).known_store_found = false := by
      rw [analyzeScan_known]
      simp [hclass, AnchorClass.isStore, initState]
    have hunk : (analyzeScan u [a] initState).unknown_store_links
        = [(normalize_link u (pyStrip a.href), a.text)] := by
      rw [analyzeScan_unknown]
      simp [initState, unknownCandidates, hclass, List.filterMap_cons]
    have hcats : ∀ x, (analyzeScan u [a] initState).categories x = [] := by
      intro x
      rw [analyzeScan_categories]
      simp [initState, storeRecordsFor, hclass, List.filterMap_cons]
    have hanalyze : ∀ x, analyze_links u [a] x
        = if x = "others"
          then [⟨"others", "", u, normalize_link u (pyStrip a.href), a.text⟩] else [] := by
      intro x
      unfold analyze_links
      simp only [hknownb, Bool.false_eq_true, if_false, hunk]
      simp only [ne_eq, List.cons_ne_nil, not_false_iff, if_true]
      rw [flushUnknown_cat, hcats]
      by_cases hx : x = "others"
      · subst hx
        simp
      · simp [hx]
    refine ⟨?_, ?_, ?_⟩
    · intro c ds hmem
      have hno : ¬(c = "others") := store_key_ne_others c ds hmem
      rw [hanalyze]
      simp [hno]
    · rw [hanalyze]
      simp
    · intro c hc
      exact absurd hc (by simp)

/-- C3 witness for the amended claim: a "Buy" anchor with host
`www.beatport.com` is assigned `beatport` and nothing else. -/
theorem c3_witness :
    pyStrip (Anchor.mk "https://www.beatport.com/track/x/1" "Buy").href ≠ "" ∧
    hasLinkSignal (Anchor.mk "https://www.beatport.com/track/x/1" "Buy").text = true ∧
    ("beatport", ["beatport.com"]) ∈ STORE_DOMAINS ∧
    ((analyze_links "https://soundcloud.com/artist/track"
        [Anchor.mk "https://www.beatport.com/track/x/1" "Buy"] "beatport" ≠ []) ↔
      storeMatchName (anchorDomain "https://soundcloud.com/artist/track"
        (Anchor.mk "https://www.beatport.com/track/x/1" "Buy")) = some "beatport") := by
  refine ⟨by decide, by decide, by decide, ?_⟩
  exact (c3_amended "https://soundcloud.com/artist/track"
    (Anchor.mk "https://www.beatport.com/track/x/1" "Buy") (by decide) (by decide)).1
    "beatport" ["beatport.com"] (by decide)

/-! ## C1: Aggregator -/

theorem summarizeRecords_mem (skipSet : List String) (oc : String)
    (s : String → List SummaryItem) (rs : List LinkRecord) (x : String) (it : SummaryItem)
    (h : it ∈ summarizeRecords skipSet oc s rs x) :
    it ∈ s x ∨ (oc = x ∧ ∃ r ∈ rs, simplifyRecord r = it ∧
      ¬(oc = "others" ∧ r.track_url ∈ skipSet)) := by
  induction rs generalizing s with
  | nil => exact Or.inl h
  | cons r rest ih =>
    simp only [summarizeRecords] at h
    by_cases hskip : oc = "others" ∧ r.track_url ∈ skipSet
    · rw [if_pos hskip] at h
      rcases ih _ h with h | ⟨hoc, r', hr', heq, hnot⟩
      · exact Or.inl h
      · exact Or.inr ⟨hoc, r', List.mem_cons_of_mem _ hr', heq, hnot⟩
    · rw [if_neg hskip] at h
      rcases ih _ h with h | ⟨hoc, r', hr', heq, hnot⟩
      · unfold appendSummary at h
        by_cases hx : x = oc
        · rw [if_pos hx] at h
          rcases List.mem_append.mp h with h | h
          · exact Or.inl h
          · obtain rfl := List.mem_singleton.mp h
            exact Or.inr ⟨hx.symm, r, List.mem_cons_self _ _, rfl, hskip⟩
        · rw [if_neg hx] at h
          exact Or.inl h
      · exact Or.inr ⟨hoc, r', List.mem_cons_of_mem _ hr', heq, hnot⟩

theorem summarizeEntries_mem (skipSet : List String) (s : String → List SummaryItem)
    (entries : List (String × List LinkRecord)) (x : String) (it : SummaryItem)
    (h : it ∈ summarizeEntries skipSet s entries x) :
    it ∈ s x ∨ ∃ k rs, (k, rs) ∈ entries ∧ outputCategory k = x ∧
      ∃ r ∈ rs, simplifyRecord r = it ∧
        ¬(outputCategory k = "others" ∧ r.track_url ∈ skipSet) := by
  induction entries generalizing s with
  | nil => exact Or.inl h
  | cons kv rest ih =>
    obtain ⟨k, rs⟩ := kv
    simp only [summarizeEntries] at h
    rcases ih _ h with h | ⟨k', rs', hmem, hoc, r, hr, heq, hnot⟩
    · rcases summarizeRecords_mem _ _ _ _ _ _ h with h | ⟨hoc, r, hr, heq, hnot⟩
      · exact Or.inl h
      · exact Or.inr ⟨k, rs, List.mem_cons_self _ _, hoc, r, hr, heq, hnot⟩
    · exact Or.inr ⟨k', rs', List.mem_cons_of_mem _ hmem, hoc, r, hr, heq, hnot⟩

theorem mem_tracksInOtherCategories (entries : List (String × List LinkRecord))
    (k : String) (rs : List LinkRecord) (r : LinkRecord)
    (hmem : (k, rs) ∈ entries) (hk1 : k ≠ "others") (hk2 : k ≠ "other") (hr : r ∈ rs) :
    r.track_url ∈ tracksInOtherCategories entries := by
  induction entries with
  | nil => cases hmem
  | cons kv rest ih =>
    obtain ⟨k0, rs0⟩ := kv
    rcases List.mem_cons.mp hmem with heq | hmem'
    · injection heq with hk hrs
      subst hk
      subst hrs
      simp only [tracksInOtherCategories, if_pos (And.intro hk1 hk2)]
      exact List.mem_append.mpr (Or.inl (List.mem_map_of_mem _ hr))
    · have hrec := ih hmem'
      simp only [tracksInOtherCategories]
      by_cases hcond : k0 ≠ "others" ∧ k0 ≠ "other"
      · rw [if_pos hcond]
        exact List.mem_append.mpr (Or.inr hrec)
      · rw [if_neg hcond]
        exact hrec

theorem outputCategory_eq_store (k c : String) (hc : c ≠ "others")
    (h : outputCategory k = c) : k = c ∧ c ∈ CATEGORY_NAMES := by
  unfold outputCategory at h
  by_cases hk : k = "other"
  · rw [if_pos hk] at h
    rw [if_pos (by decide : ("others" : String) ∈ CATEGORY_NAMES)] at h
    exact absurd h.symm hc
  · rw [if_neg hk] at h
    by_cases hin : k ∈ CATEGORY_NAMES
    · rw [if_pos hin] at h
      subst h
      exact ⟨rfl, hin⟩
    · rw [if_neg hin] at h
      exact absurd h.symm hc

/-- C1 counterexample: the claim says every item URL appears in at most
one category sequence of the summary, in particular not in two different
storefront categories.  `summarize_categories` only filters the `others`
bucket, so an item with Link Records under both `bandcamp` and `beatport`
appears in both output sequences. -/
theorem c1_counterexample :
    ((summarize_categories
        [("bandcamp",
          [⟨"bandcamp", "T", "https://soundcloud.com/a/t", "https://b.com/x", "Buy"⟩]),
         ("beatport",
          [⟨"beatport", "T", "https://soundcloud.com/a/t", "https://bp.com/y", "Buy"⟩])]
        "bandcamp").map (fun it => it.track_url) = ["https://soundcloud.com/a/t"]) ∧
    ((summarize_categories
        [("bandcamp",
          [⟨"bandcamp", "T", "https://soundcloud.com/a/t", "https://b.com/x", "Buy"⟩]),
         ("beatport",
          [⟨"beatport", "T", "https://soundcloud.com/a/t", "https://bp.com/y", "Buy"⟩])]
        "beatport").map (fun it => it.track_url) = ["https://soundcloud.com/a/t"]) := by
  refine ⟨by decide, by decide⟩

/-- C1 amended: the exclusivity the Aggregator actually enforces is
one-sided — an item URL appears in the catch-all (`others`) sequence only
if it appears in no non-catch-all sequence; it may appear in several
non-catch-all storefront sequences at once. -/
theorem c1_amended (categorized : List (String × List LinkRecord)) (u c : String)
    (hc : c ≠ "others")
    (h : u ∈ (summarize_categories categorized "others").map (fun it => it.track_url)) :
    u ∉ (summarize_categories categorized c).map (fun it => it.track_url) := by
  intro hmem
  rw [List.mem_map] at h hmem
  obtain ⟨it1, hit1, hu1⟩ := h
  obtain ⟨it2, hit2, hu2⟩ := hmem
  unfold summarize_categories at hit1 hit2
  rcases summarizeEntries_mem _ _ _ _ _ hit1 with h1 | ⟨k1, rs1, hm1, ho1, r1, hr1, he1, hn1⟩
  · cases h1
  rcases summarizeEntries_mem _ _ _ _ _ hit2 with h2 | ⟨k2, rs2, hm2, ho2, r2, hr2, he2, hn2⟩
  · cases h2
  obtain ⟨hk2eq, hcin⟩ := outputCategory_eq_store k2 c hc ho2
  subst hk2eq
  have hcother : k2 ≠ "other" := by
    intro hq
    rw [hq] at hcin
    revert hcin
    decide
  have hskip : r2.track_url ∈ tracksInOtherCategories categorized :=
    mem_tracksInOtherCategories _ _ _ _ hm2 hc hcother hr2
  have hnot1 : r1.track_url ∉ tracksInOtherCategories categorized := by
    intro hmem1
    exact hn1 ⟨ho1, hmem1⟩
  have e1 : r1.track_url = u := by rw [← hu1, ← he1]; rfl
  have e2 : r2.track_url = u := by rw [← hu2, ← he2]; rfl
  apply hnot1
  rw [e1, ← e2]
  exact hskip

/-- C1 witness for the amended claim: an input whose only entry is an
`others` record keeps that URL in the catch-all output and in no
storefront output. -/
theorem c1_witness :
    ("bandcamp" : String) ≠ "others" ∧
    "u2" ∈ ((summarize_categories
        [("others", [⟨"others", "T", "u2", "u2", "No store link found"⟩])] "others").map
      (fun it => it.track_url)) ∧
    ¬("u2" ∈ ((summarize_categories
        [("others", [⟨"others", "T", "u2", "u2", "No store link found"⟩])] "bandcamp").map
      (fun it => it.track_url))) := by
  refine ⟨by decide, by decide, ?_⟩
  exact c1_amended _ _ _ (by decide) (by decide)

/-! ## C9: fetch-failure handling in the orchestrator -/

/-- C9: when the fetch of one item URL fails (request exception or status
at least 400, i.e. `fetch_track_page` yields nothing), the orchestrator
contributes exactly one synthetic `others` record for that item — with
`link_url` equal to the item URL and the fixed placeholder text — and the
contributions of the items before and after it are exactly what they
would be without it: the batch continues and no other item is affected. -/
theorem c9_fetch_failure (session : String → Option (Nat × TrackPage))
    (us1 us2 : List String) (u : String)
    (h : fetch_track_page (session u) = none) :
    ∀ c, collect_track_data session (us1 ++ u :: us2) c
      = collect_track_data session us1 c
        ++ (if c = "others"
            then [⟨"others", "Unknown title", u, u, "Could not fetch track page"⟩] else [])
        ++ collect_track_data session us2 c := by
  intro c
  induction us1 with
  | nil =>
    simp only [List.nil_append, collect_track_data]
    unfold trackContribution
    rw [h]
  | cons v rest ih =>
    simp only [List.cons_append, collect_track_data, List.append_eq]
    rw [ih]
    simp [List.append_assoc]

/-- C9 witness: a two-item batch whose second item fails to fetch gets
exactly the synthetic record appended after the first item's
contribution. -/
theorem c9_witness :
    fetch_track_page ((fun v : String =>
      if v = "https://soundcloud.com/a/bad" then none
      else some (400 - 200, TrackPage.mk (some "T | SoundCloud") []))
        "https://soundcloud.com/a/bad") = none ∧
    collect_track_data
        (fun v : String =>
          if v = "https://soundcloud.com/a/bad" then none
          else some (400 - 200, TrackPage.mk (some "T | SoundCloud") []))
        (["https://soundcloud.com/a/good"] ++ "https://soundcloud.com/a/bad" :: []) "others"
      = collect_track_data
          (fun v : String =>
            if v = "https://soundcloud.com/a/bad" then none
            else some (400 - 200, TrackPage.mk (some "T | SoundCloud") []))
          ["https://soundcloud.com/a/good"] "others"
        ++ (if "others" = "others"
            then [⟨"others", "Unknown title", "https://soundcloud.com/a/bad",
                  "https://soundcloud.com/a/bad", "Could not fetch track page"⟩] else [])
        ++ collect_track_data
            (fun v : String =>
              if v = "https://soundcloud.com/a/bad" then none
              else some (400 - 200, TrackPage.mk (some "T | SoundCloud") []))
            [] "others" := by
  refine ⟨by decide, ?_⟩
  exact c9_fetch_failure _ ["https://soundcloud.com/a/good"] [] "https://soundcloud.com/a/bad"
    (by decide) "others"

/-! ## C6: declared track count from hydration data -/

theorem playlistEntryStep_preserve (dataFields : List (String × JValue)) (links : List String)
    (n : Int) (hn : n ≠ 0) (l2 : List String) (d2 : Option Int)
    (h : playlistEntryStep dataFields links (some n) = .ok (l2, d2)) : d2 = some n := by
  have ht : declaredTruthy (some n) = true := by simp [declaredTruthy, hn]
  have h1 : stepTrackCount dataFields (some n) = some n := by
    unfold stepTrackCount
    cases jGet dataFields "track_count" with
    | none => rfl
    | some tc => cases tc <;> simp [ht]
  have h2 : stepLenFallback ((jGet dataFields "tracks").getD (.jlist [])) (some n) = some n := by
    unfold stepLenFallback
    cases (jGet dataFields "tracks").getD (.jlist []) <;> simp
  unfold playlistEntryStep at h
  rw [h1, h2] at h
  cases hti : tracksIter ((jGet dataFields "tracks").getD (JValue.jlist [])) links with
  | ok l3 =>
    rw [hti] at h
    injection h with h'
    injection h' with ha hb
    exact hb.symm
  | error u =>
    rw [hti] at h
    cases h

theorem hydrationEntries_preserve (entries : List JValue) (n : Int) (hn : n ≠ 0) :
    ∀ links links' d, hydrationEntries entries links (some n) = .ok (links', d) →
      d = some n := by
  induction entries with
  | nil =>
    intro links links' d h
    simp only [hydrationEntries, Except.ok.injEq, Prod.mk.injEq] at h
    exact h.2.symm
  | cons e rest ih =>
    intro links links' d h
    cases e with
    | jobj fields =>
      by_cases hp : isPlaylistEntry fields = true
      · simp only [hydrationEntries, hp, if_true] at h
        cases hdata : (jGet fields "data").getD (.jobj []) with
        | jobj dataFields =>
          rw [hdata] at h
          dsimp only at h
          cases hstep : playlistEntryStep dataFields links (some n) with
          | ok p =>
            obtain ⟨l2, d2⟩ := p
            rw [hstep] at h
            obtain rfl : d2 = some n :=
              playlistEntryStep_preserve dataFields links n hn l2 d2 hstep
            exact ih _ _ _ h
          | error u =>
            rw [hstep] at h
            cases h
        | jnull => rw [hdata] at h; cases h
        | jbool b => rw [hdata] at h; cases h
        | jint m => rw [hdata] at h; cases h
        | jstr t => rw [hdata] at h; cases h
        | jlist l => rw [hdata] at h; cases h
      · rw [Bool.not_eq_true] at hp
        simp only [hydrationEntries, hp, Bool.false_eq_true, if_false] at h
        exact ih _ _ _ h
    | jnull => simp only [hydrationEntries] at h; exact ih _ _ _ h
    | jbool b => simp only [hydrationEntries] at h; exact ih _ _ _ h
    | jint m => simp only [hydrationEntries] at h; exact ih _ _ _ h
    | jstr t => simp only [hydrationEntries] at h; exact ih _ _ _ h
    | jlist l => simp only [hydrationEntries] at h; exact ih _ _ _ h

theorem hydrationEntries_skip (pre rest : List JValue) (links : List String)
    (declared : Option Int) (hpre : ∀ e ∈ pre, skipEntry e = true) :
    hydrationEntries (pre ++ rest) links declared = hydrationEntries rest links declared := by
  induction pre with
  | nil => rfl
  | cons e pre2 ih =>
    have he := hpre e (List.mem_cons_self _ _)
    have hrest : ∀ x ∈ pre2, skipEntry x = true :=
      fun x hx => hpre x (List.mem_cons_of_mem _ hx)
    cases e with
    | jobj fields =>
      rw [show skipEntry (JValue.jobj fields) = !(isPlaylistEntry fields) from rfl,
        Bool.not_eq_true'] at he
      simp only [List.cons_append, hydrationEntries, he, Bool.false_eq_true, if_false]
      exact ih hrest
    | jnull => simp only [List.cons_append, hydrationEntries]; exact ih hrest
    | jbool b => simp only [List.cons_append, hydrationEntries]; exact ih hrest
    | jint m => simp only [List.cons_append, hydrationEntries]; exact ih hrest
    | jstr t => simp only [List.cons_append, hydrationEntries]; exact ih hrest
    | jlist l => simp only [List.cons_append, hydrationEntries]; exact ih hrest

/-- C6 counterexample: the claim says the first successfully parsed
track-count value wins for every integer value, including 0.  With a
first playlist entry declaring 0 and a second declaring 5, the code
(`declared = declared or int(track_count)`) treats the stored 0 as falsy
and replaces it, returning 5 rather than the first entry's 0. -/
theorem c6_counterexample :
    extract_links_from_hydration_data
        (.jlist [mkPlaylistEntry [("track_count", .jint 0), ("tracks", .jlist [])],
                 mkPlaylistEntry [("track_count", .jint 5), ("tracks", .jlist [])]])
      = .ok ([], some 5) ∧
    extract_links_from_hydration_data
        (.jlist [mkPlaylistEntry [("track_count", .jint 0), ("tracks", .jlist [])],
                 mkPlaylistEntry [("track_count", .jint 5), ("tracks", .jlist [])]])
      ≠ .ok ([], some 0) := by
  refine ⟨by decide, by decide⟩

/-- C6 amended: the first successfully parsed NONZERO track-count value
wins — once the declared count holds a nonzero value, no later entry
(neither a later track-count field nor the track-list-length fallback)
replaces it.  A parsed value of 0 does set the declared count (so the
length fallback no longer fires) but is replaced by the next successfully
parsed value, as the counterexample shows. -/
theorem c6_amended (pre rest : List JValue) (dataFields : List (String × JValue))
    (tc : JValue) (n : Int) (links' : List String) (d : Option Int)
    (hpre : ∀ e ∈ pre, skipEntry e = true)
    (htc : jGet dataFields "track_count" = some tc)
    (hn : pyInt tc = some n) (hn0 : n ≠ 0)
    (h : extract_links_from_hydration_data
        (.jlist (pre ++ mkPlaylistEntry dataFields :: rest)) = .ok (links', d)) :
    d = some n := by
  unfold extract_links_from_hydration_data at h
  dsimp only at h
  rw [hydrationEntries_skip pre _ _ _ hpre] at h
  have hfieldsPlaylist : isPlaylistEntry
      [("hydratable", JValue.jstr "playlist"), ("data", JValue.jobj dataFields)] = true := rfl
  have hfieldsData : (jGet [("hydratable", JValue.jstr "playlist"),
      ("data", JValue.jobj dataFields)] "data").getD (.jobj []) = JValue.jobj dataFields := rfl
  simp only [mkPlaylistEntry, hydrationEntries, hfieldsPlaylist, if_true, hfieldsData] at h
  have h1 : stepTrackCount dataFields none = some n := by
    unfold stepTrackCount
    rw [htc]
    cases tc with
    | jnull => simp [pyInt] at hn
    | jbool b => simp [declaredTruthy, hn]
    | jint m => simp [declaredTruthy, hn]
    | jstr t => simp [declaredTruthy, hn]
    | jlist l => simp [pyInt] at hn
    | jobj o => simp [pyInt] at hn
  have h2 : stepLenFallback ((jGet dataFields "tracks").getD (.jlist [])) (some n) = some n := by
    unfold stepLenFallback
    cases (jGet dataFields "tracks").getD (.jlist []) <;> simp
  cases hstep : playlistEntryStep dataFields [] none with
  | ok p =>
    obtain ⟨l2, d2⟩ := p
    rw [hstep] at h
    have hd2 : d2 = some n := by
      unfold playlistEntryStep at hstep
      rw [h1, h2] at hstep
      cases hti : tracksIter ((jGet dataFields "tracks").getD (.jlist [])) [] with
      | ok l3 =>
        rw [hti] at hstep
        injection hstep with h'
        injection h' with ha hb
        exact hb.symm
      | error u =>
        rw [hti] at hstep
        cases hstep
    rw [hd2] at h
    exact hydrationEntries_preserve rest n hn0 _ _ _ h
  | error u =>
    rw [hstep] at h
    cases h

/-- C6 witness: a first playlist entry declaring 7 keeps 7 against a
later entry declaring 3. -/
theorem c6_witness :
    extract_links_from_hydration_data
        (.jlist ([JValue.jstr "noise"] ++ mkPlaylistEntry
            [("track_count", .jint 7), ("tracks", .jlist [])]
          :: [mkPlaylistEntry [("track_count", .jint 3), ("tracks", .jlist [])]]))
      = .ok ([], some 7) ∧
    (some 7 : Option Int) = some 7 := by
  refine ⟨by decide, ?_⟩
  exact c6_amended [JValue.jstr "noise"]
    [mkPlaylistEntry [("track_count", .jint 3), ("tracks", .jlist [])]]
    [("track_count", .jint 7), ("tracks", .jlist [])] (.jint 7) 7 [] (some 7)
    (by decide) rfl rfl (by decide) (by decide)

/-! ## C7: declared count from page text -/

/-- C7 counterexample: the claim says the declared count is obtained by
scanning the visible text for exactly two patterns, first match winning.
But the code first consults the `numTracks` meta element: on a page whose
meta content is `7` while the visible text says `Contains tracks 3`, the
function returns 7, not the 3 that the claim's first pattern yields. -/
theorem c7_counterexample :
    extract_declared_track_count (some ⟨some "7", none⟩) "Contains tracks 3" = some 7 ∧
    searchContains ("Contains tracks 3".toList) = some 3 ∧
    (some 7 : Option Int) ≠ some 3 := by
  refine ⟨by decide, by decide, by decide⟩

/-- C7 amended: the declared count is resolved from three sources in
order — first the `numTracks` meta element's `content`-or-`value`
attribute parsed as an integer; only when that yields nothing, the
visible text is scanned for the `Contains tracks N` pattern and then the
`N track(s)` pattern, first match winning; when all three fail the result
is `none`, not an error. -/
theorem c7_amended :
    (∀ meta text n, metaDeclaredCount meta = some n →
      extract_declared_track_count meta text = some n) ∧
    (∀ meta text n, metaDeclaredCount meta = none →
      searchContains text.toList = some n →
      extract_declared_track_count meta text = some (n : Int)) ∧
    (∀ meta text n, metaDeclaredCount meta = none →
      searchContains text.toList = none → searchInline none text.toList = some n →
      extract_declared_track_count meta text = some (n : Int)) ∧
    (∀ meta text, metaDeclaredCount meta = none →
      searchContains text.toList = none → searchInline none text.toList = none →
      extract_declared_track_count meta text = none) := by
  refine ⟨?_, ?_, ?_, ?_⟩
  · intro meta text n hm
    unfold extract_declared_track_count
    rw [hm]
  · intro meta text n hm hc
    unfold extract_declared_track_count
    rw [hm, hc]
  · intro meta text n hm hc hi
    unfold extract_declared_track_count
    rw [hm, hc, hi]
  · intro meta text hm hc hi
    unfold extract_declared_track_count
    rw [hm, hc, hi]

/-- C7 witness: a parsed meta count of 9 wins independently of the page
text. -/
theorem c7_witness :
    metaDeclaredCount (some ⟨some "9", none⟩) = some 9 ∧
    extract_declared_track_count (some ⟨some "9", none⟩) "Contains tracks 3" = some 9 := by
  refine ⟨by decide, ?_⟩
  exact c7_amended.1 (some ⟨some "9", none⟩) "Contains tracks 3" 9 (by decide)

/-! ## C8: bounded bracket scan on malformed hydration scripts -/

theorem bracketScanAux_take (fuel : Nat) :
    ∀ (l : List Char) (depth : Int) (i : Nat),
      bracketScanAux l depth i fuel = bracketScanAux (l.take fuel) depth i fuel := by
  induction fuel with
  | zero =>
    intro l depth i
    cases l <;> rfl
  | succ f ih =>
    intro l depth i
    cases l with
    | nil => rfl
    | cons c rest =>
      simp only [List.take_succ_cons, bracketScanAux]
      split_ifs <;> first | rfl | apply ih

theorem listStartsW_append_contains (p q : List Char) :
    ∀ l : List Char, listStartsW (p ++ q) l = true → containsSub q l = true := by
  induction p with
  | nil =>
    intro l h
    rw [List.nil_append] at h
    cases l with
    | nil =>
      cases q with
      | nil => rfl
      | cons a as => cases h
    | cons c rest => simp [containsSub, h]
  | cons a as ih =>
    intro l h
    cases l with
    | nil => cases h
    | cons c rest =>
      by_cases hc : c = a
      · rw [show listStartsW (a :: as ++ q) (c :: rest) = listStartsW (as ++ q) rest from by
          simp [listStartsW, hc]] at h
        have := ih rest h
        simp [containsSub, this]
      · rw [show listStartsW (a :: as ++ q) (c :: rest) = false from by
          simp [listStartsW, hc]] at h
        cases h

theorem listFindSub_contains (p q : List Char) :
    ∀ (l : List Char) (i j : Nat), listFindSub (p ++ q) l i = some j →
      containsSub q l = true := by
  intro l
  induction l with
  | nil =>
    intro i j h
    simp only [listFindSub] at h
    by_cases hs : listStartsW (p ++ q) [] = true
    · exact listStartsW_append_contains p q [] hs
    · rw [if_neg hs] at h
      cases h
  | cons c rest ih =>
    intro i j h
    simp only [listFindSub] at h
    by_cases hs : listStartsW (p ++ q) (c :: rest) = true
    · exact listStartsW_append_contains p q _ hs
    · rw [if_neg hs] at h
      have := ih _ _ h
      simp [containsSub, this]

theorem hydrationFoldStep_skip (acc : List String × Option Int) (s : String)
    (hs : processScript s = ([], none)) : hydrationFoldStep acc s = acc := by
  obtain ⟨a, b⟩ := acc
  unfold hydrationFoldStep
  rw [hs]
  cases b <;> simp [setUnionList]

theorem load_tracks_core_skip (track_links : List String) (pre post : List String) (s : String)
    (textDeclared : Option Int) (hs : processScript s = ([], none)) :
    load_tracks_core track_links (pre ++ s :: post) textDeclared
      = load_tracks_core track_links (pre ++ post) textDeclared := by
  unfold load_tracks_core
  rw [List.foldl_append, List.foldl_append, List.foldl_cons, hydrationFoldStep_skip _ _ hs]

theorem processScript_unterminated (s : String) (start_idx array_start : Nat)
    (h1 : listFindSub "window.__sc_hydration".toList s.toList 0 = some start_idx)
    (h2 : findCharFrom s.toList '[' start_idx = some array_start)
    (h3 : bracketScanAux (s.toList.drop array_start) 0 array_start
        (min 50000 (s.toList.length - array_start)) = none) :
    processScript s = ([], none) := by
  have hsplit : ("window.__sc_hydration".toList : List Char)
      = "window.".toList ++ "__sc_hydration".toList := by decide
  have hcontains : containsSub "__sc_hydration".toList s.toList = true := by
    apply listFindSub_contains "window.".toList "__sc_hydration".toList s.toList 0 start_idx
    rw [← hsplit]
    exact h1
  have hend : bracketEnd s.toList array_start = array_start := by
    unfold bracketEnd
    rw [h3]
  unfold processScript
  rw [hcontains]
  simp only [Bool.true_or, if_true]
  rw [h1]
  dsimp only
  rw [h2]
  dsimp only
  rw [hend]
  simp only [Nat.sub_self, List.take_zero]
  rw [show jsonParse (String.mk []) = Except.error () from rfl]

/-- C8: a script body whose hydration marker is followed by a `[` that the
window never sees closed is harmless: the depth-tracking scan inspects at
most the 50,000-character window (it equals the scan of the truncated
window), the occurrence contributes no links and no declared count (the
swallowed `json.loads("")` failure), and the whole extraction over the
remaining scripts and the anchor-derived link set is exactly what it
would be without this script. -/
theorem c8_unterminated_scan (track_links : List String) (pre post : List String) (s : String)
    (textDeclared : Option Int) (start_idx array_start : Nat)
    (h1 : listFindSub "window.__sc_hydration".toList s.toList 0 = some start_idx)
    (h2 : findCharFrom s.toList '[' start_idx = some array_start)
    (h3 : bracketScanAux (s.toList.drop array_start) 0 array_start
        (min 50000 (s.toList.length - array_start)) = none) :
    bracketScanAux (s.toList.drop array_start) 0 array_start
        (min 50000 (s.toList.length - array_start))
      = bracketScanAux ((s.toList.drop array_start).take
          (min 50000 (s.toList.length - array_start))) 0 array_start
          (min 50000 (s.toList.length - array_start)) ∧
    processScript s = ([], none) ∧
    load_tracks_core track_links (pre ++ s :: post) textDeclared
      = load_tracks_core track_links (pre ++ post) textDeclared := by
  have hps := processScript_unterminated s start_idx array_start h1 h2 h3
  exact ⟨bracketScanAux_take _ _ _ _, hps,
    load_tracks_core_skip track_links pre post s textDeclared hps⟩

/-- C8 witness: the unterminated script
`window.__sc_hydration = [1, 2` in the middle of a batch leaves the
extraction of the other scripts and the anchor link set unchanged. -/
theorem c8_witness :
    listFindSub "window.__sc_hydration".toList
        "window.__sc_hydration = [1, 2".toList 0 = some 0 ∧
    findCharFrom "window.__sc_hydration = [1, 2".toList '[' 0 = some 24 ∧
    bracketScanAux ("window.__sc_hydration = [1, 2".toList.drop 24) 0 24
        (min 50000 ("window.__sc_hydration = [1, 2".toList.length - 24)) = none ∧
    processScript "window.__sc_hydration = [1, 2" = ([], none) ∧
    load_tracks_core ["https://soundcloud.com/a/b"]
        (["var a = 1;"] ++ "window.__sc_hydration = [1, 2" :: ["var b = 2;"]) none
      = load_tracks_core ["https://soundcloud.com/a/b"] (["var a = 1;"] ++ ["var b = 2;"])
          none := by
  refine ⟨by decide, by decide, by decide, ?_, ?_⟩
  · exact (c8_unterminated_scan ["https://soundcloud.com/a/b"] ["var a = 1;"] ["var b = 2;"]
      "window.__sc_hydration = [1, 2" none 0 24 (by decide) (by decide) (by decide)).2.1
  · exact (c8_unterminated_scan ["https://soundcloud.com/a/b"] ["var a = 1;"] ["var b = 2;"]
      "window.__sc_hydration = [1, 2" none 0 24 (by decide) (by decide) (by decide)).2.2
